import Mathlib

/-!
# Sanic: a shallow embedding of the reliability / reassembly engine

This file embeds the core of the Sanic UDP file-transfer program
(`src/protocol.rs`, `src/server.rs`, `src/client.rs`) as executable Lean
definitions and proves / refutes the specification's claims about it.

Bytes are modelled as `Nat` (values < 256 where the code produces them),
byte buffers as `List Nat`, `Vec<u32>` as `List Nat`, and the sender's
`HashMap<u32, Vec<u8>>` as an association list with unique keys
(`insert` replaces).  Rust panics (index out of bounds, `usize`
underflow, `.expect` on `Err`) are modelled as explicit `panic`
constructors of result types, so that safety claims are statable.
-/

namespace Sanic

/-! ## Global constants (`src/main.rs`) -/

/-- `const MTU: usize = 1500;` -/
def MTU : Nat := 1500

/-- `const BUF_CAPACITY: usize = 8 * 1024 * 1024;` -/
def BUF_CAPACITY : Nat := 8 * 1024 * 1024

/-- Modelled from the spec: the constant `PART_SIZE` is imported by
`src/server.rs` and `src/client.rs` (`use crate::PART_SIZE`) but its
definition is not present under `src/`.  Spec §3: "header = 1 tag byte +
4 id bytes = 5; usable chunk size is this remainder, call it PART_SIZE",
i.e. `PART_SIZE = MTU - 5`. -/
def PART_SIZE : Nat := MTU - 5

/-! ## Wire codec (`src/protocol.rs`) -/

/-- The `Message` enum of `src/protocol.rs`. The filename is kept as its
byte sequence (`String::from_utf8_lossy` on parse / `as_bytes` on
serialize); `u32` fields are `Nat` values. -/
inductive Message where
  | send (filename : List Nat) (parts : Nat)
  | accept
  | part (id : Nat) (data : List Nat)
  | sync (ids : List Nat)
  | ack (ids : List Nat)
  | loss (ids : List Nat)
deriving DecidableEq, Repr

/-- Big-endian bytes of a `u32` (`u32::to_be_bytes`). -/
def u32be (n : Nat) : List Nat :=
  [n / 2 ^ 24 % 256, n / 2 ^ 16 % 256, n / 2 ^ 8 % 256, n % 256]

/-- Big-endian bytes of a `usize` (`usize::to_be_bytes`, 8 bytes on the
64-bit targets the program is built for). -/
def u64be (n : Nat) : List Nat :=
  [n / 2 ^ 56 % 256, n / 2 ^ 48 % 256, n / 2 ^ 40 % 256, n / 2 ^ 32 % 256,
   n / 2 ^ 24 % 256, n / 2 ^ 16 % 256, n / 2 ^ 8 % 256, n % 256]

/-- `Message::serialize` (`src/protocol.rs:87-129`).  Note that the
length prefixes written for `Send` filenames and for the `Sync`/`Ack`/
`Loss` id lists are `usize` values (`filename.len().to_be_bytes()`,
`ids.len().to_be_bytes()`), hence 8 bytes each. -/
def Message.serialize : Message → List Nat
  | .send filename parts => 0 :: (u32be parts ++ u64be filename.length ++ filename)
  | .accept => [1]
  | .part id data => 2 :: (u32be id ++ data)
  | .sync ids => 3 :: (u64be ids.length ++ (ids.map u32be).flatten)
  | .ack ids => 4 :: (u64be ids.length ++ (ids.map u32be).flatten)
  | .loss ids => 5 :: (u64be ids.length ++ (ids.map u32be).flatten)

/-- Result of `Message::parse`: `Ok`, `Err(MarshallError)`, or a Rust
panic/abort (out-of-bounds index or `usize` underflow). -/
inductive ParseResult where
  | ok (m : Message)
  | error
  | panic
deriving DecidableEq, Repr

/-- `ReadBytesExt::read_u32::<BigEndian>` on a `Cursor` positioned at
`pos`: returns the value and the new position, or `None` when fewer than
4 bytes remain (mapped to `MarshallError::UnableToDeserialize`). -/
def readU32 (data : List Nat) (pos : Nat) : Option (Nat × Nat) :=
  if pos + 4 ≤ data.length then
    some (data.getD pos 0 * 2 ^ 24 + data.getD (pos + 1) 0 * 2 ^ 16 +
          data.getD (pos + 2) 0 * 2 ^ 8 + data.getD (pos + 3) 0, pos + 4)
  else
    none

/-- The `for _ in 0..size { read_u32 }` loops of the `Sync`/`Ack`/`Loss`
branches: read `count` big-endian `u32` values starting at `pos`. -/
def readIds (data : List Nat) : Nat → Nat → Option (List Nat)
  | 0, _ => some []
  | count + 1, pos =>
    match readU32 data pos with
    | none => none
    | some (v, pos') => (readIds data count pos').map (fun ids => v :: ids)

/-- `Message::parse` (`src/protocol.rs:34-85`).

Faithful to the source, including its defects:
* `data[0]` is indexed before any length check, so the empty slice
  panics;
* every numeric field is read through a `Cursor` that starts at
  position `0`, so the first `read_u32` consumes the discriminant byte
  as the high byte of the value;
* the `Part` branch allocates `vec![0; data.len() - 4 - 1]`, a `usize`
  subtraction that underflows (panic/abort) when `data.len() < 5`; when
  it succeeds, `read_to_end` *appends* the remaining `data.len() - 4`
  bytes to those zeroes. -/
def Message.parse (data : List Nat) : ParseResult :=
  match data with
  | [] => .panic
  | tag :: _ =>
    if tag = 0 then
      match readU32 data 0 with
      | none => .error
      | some (parts, p1) =>
        match readU32 data p1 with
        | none => .error
        | some (stringSize, p2) =>
          if p2 + stringSize ≤ data.length then
            .ok (.send ((data.drop p2).take stringSize) parts)
          else
            .error
    else if tag = 1 then
      .ok .accept
    else if tag = 2 then
      match readU32 data 0 with
      | none => .error
      | some (id, _) =>
        if data.length < 5 then
          .panic
        else
          .ok (.part id (List.replicate (data.length - 5) 0 ++ data.drop 4))
    else if tag = 3 then
      match readU32 data 0 with
      | none => .error
      | some (size, p1) =>
        match readIds data size p1 with
        | none => .error
        | some ids => .ok (.sync ids)
    else if tag = 4 then
      match readU32 data 0 with
      | none => .error
      | some (size, p1) =>
        match readIds data size p1 with
        | none => .error
        | some ids => .ok (.ack ids)
    else if tag = 5 then
      match readU32 data 0 with
      | none => .error
      | some (size, p1) =>
        match readIds data size p1 with
        | none => .error
        | some ids => .ok (.loss ids)
    else
      .error

/-! ## Sender (`src/server.rs`) -/

/-- Result of `make_parts_packet`: `Ok` with the mutated packet slice,
`Err(BufferError::DoesNotFit)`, or an out-of-bounds index panic. -/
inductive MkResult where
  | ok (packet : List Nat)
  | doesNotFit
  | panic
deriving DecidableEq, Repr

/-- `make_parts_packet` (`src/server.rs:28-46`): after the `DoesNotFit`
size check it stores `packet[0] = 2`, `packet[1..5] = part_id` (big
endian) and `packet[5 + i] = data[i]` by direct indexing.  The highest
index written is `4 + data.len()` for non-empty data and `4` otherwise,
so the stores are in bounds exactly when `5 + data.len() ≤
packet.len()`; otherwise the first out-of-bounds store panics. -/
def makePartsPacket (data : List Nat) (partId : Nat) (packet : List Nat) : MkResult :=
  if PART_SIZE < data.length then .doesNotFit
  else if packet.length < 5 + data.length then .panic
  else .ok (2 :: (u32be partId ++ data ++ packet.drop (5 + data.length)))

/-- `read_to_end` (`src/server.rs:6-26`): each iteration allocates
`vec![0; BUF_CAPACITY]`, reads into its front, and sends the *entire*
buffer down the channel regardless of how many bytes the read actually
returned; a read of 0 bytes ends the loop.  For a regular file each
read returns `min(remaining, BUF_CAPACITY)` bytes into the front of the
zero-filled buffer. -/
def readToEndBuffers (file : List Nat) : List (List Nat) :=
  if h : file = [] then []
  else
    (file.take BUF_CAPACITY ++ List.replicate (BUF_CAPACITY - file.length) 0)
      :: readToEndBuffers (file.drop BUF_CAPACITY)
termination_by file.length
decreasing_by
  have h1 : 0 < file.length := List.length_pos.mpr h
  have h2 : 0 < BUF_CAPACITY := by norm_num [BUF_CAPACITY]
  simp only [List.length_drop]
  omega

/-- `slice::chunks(n)`: consecutive chunks of `n` bytes, the last one
possibly shorter; chunks are never empty. -/
def chunksOf (n : Nat) (l : List Nat) : List (List Nat) :=
  if h : l = [] ∨ n = 0 then []
  else l.take n :: chunksOf n (l.drop n)
termination_by l.length
decreasing_by
  push_neg at h
  have h1 : 0 < l.length := List.length_pos.mpr h.1
  simp only [List.length_drop]
  omega

/-- The body of `handle_send`'s `for chunk in data.chunks(PART_SIZE)`
loop (`src/server.rs:96-103`): each iteration allocates
`Vec::with_capacity(MTU)` — a vector of *length 0* — and hands it to
`make_parts_packet`.  A `DoesNotFit` error aborts the thread through
`.expect("Chunk too big!")` and an out-of-bounds store panics; both are
modelled as `none`.  On success the built frame is sent and paired with
the current part id. -/
def sendChunks : List (List Nat) → Nat → Option (List (Nat × List Nat) × Nat)
  | [], partId => some ([], partId)
  | chunk :: rest, partId =>
    match makePartsPacket chunk partId [] with
    | .ok pkt => (sendChunks rest (partId + 1)).map (fun r => ((partId, pkt) :: r.1, r.2))
    | _ => none

/-- `handle_send` (`src/server.rs:89-111`) over the whole sequence of
buffers delivered by `read_to_end`: the resulting `(id, frame)` stream,
or `none` when the sender panics. -/
def handleSendGo : List (List Nat) → Nat → Option (List (Nat × List Nat))
  | [], _ => some []
  | buf :: rest, partId =>
    match sendChunks (chunksOf PART_SIZE buf) partId with
    | none => none
    | some (pkts, partId') => (handleSendGo rest partId').map (fun ps => pkts ++ ps)

/-- The Transmitter pipeline: `read_to_end` feeding `handle_send`,
starting from part id 0. -/
def handleSend (buffers : List (List Nat)) : Option (List (Nat × List Nat)) :=
  handleSendGo buffers 0

/-- `slice::binary_search` on the window `[lo, hi)` of `a`: `some i`
with `a[i] = target` where Rust returns `Ok(i)`, and `none` for
`Err(_)` (the insertion point is unused by this program).  The `fuel`
argument makes the recursion structural; the window shrinks strictly
each step, so any `fuel ≥ hi - lo` computes the search exactly. -/
def binarySearchGo (a : List Nat) (target : Nat) : Nat → Nat → Nat → Option Nat
  | 0, _, _ => none
  | fuel + 1, lo, hi =>
    if lo < hi then
      if a.getD ((lo + hi) / 2) 0 < target then
        binarySearchGo a target fuel ((lo + hi) / 2 + 1) hi
      else if target < a.getD ((lo + hi) / 2) 0 then
        binarySearchGo a target fuel lo ((lo + hi) / 2)
      else some ((lo + hi) / 2)
    else none

/-- `Vec::binary_search` over the whole vector. -/
def binarySearch (a : List Nat) (target : Nat) : Option Nat :=
  binarySearchGo a target a.length 0 a.length

/-- Sender-side shared state: `parts_waiting_ack: Vec<u32>` and
`packet_in_flight: HashMap<u32, Vec<u8>>`, the hash map modelled as an
association list with unique keys (`insert` replaces). -/
structure SrvState where
  waiting : List Nat
  inFlight : List (Nat × List Nat)
deriving DecidableEq, Repr

/-- `HashMap::get` on the association-list model. -/
def lookupPacket (inFlight : List (Nat × List Nat)) (id : Nat) : Option (List Nat) :=
  match inFlight with
  | [] => none
  | (k, v) :: rest => if k = id then some v else lookupPacket rest id

/-- One id of the `Ack` branch of `handle_ack_and_loss`
(`src/server.rs:56-63`): binary-search `parts_waiting_ack` and remove
the element at the found position; on `Err` only a warning is logged
and the vector is left unchanged.  `packet_in_flight` is not touched by
this branch. -/
def ackStep (waiting : List Nat) (id : Nat) : List Nat :=
  match binarySearch waiting id with
  | some pos => waiting.eraseIdx pos
  | none => waiting

/-- The `Ack` branch over a whole id list. -/
def handleAckMsg (st : SrvState) (ids : List Nat) : SrvState :=
  { st with waiting := ids.foldl ackStep st.waiting }

/-- The `Loss` branch (`src/server.rs:65-73`): for each id, look the
frame up in `packet_in_flight` and resend it verbatim; an absent id is
only logged.  Returns the frames put on the socket, in order. -/
def lossResends (inFlight : List (Nat × List Nat)) : List Nat → List (List Nat)
  | [] => []
  | id :: rest =>
    match lookupPacket inFlight id with
    | some pkt => pkt :: lossResends inFlight rest
    | none => lossResends inFlight rest

/-- The `Loss` branch of `handle_ack_and_loss`: resulting state (never
modified by the source) and the retransmitted frames. -/
def handleLossMsg (st : SrvState) (ids : List Nat) : SrvState × List (List Nat) :=
  (st, lossResends st.inFlight ids)

/-- The per-packet registration done by `handle_send`
(`src/server.rs:100-101`): push the id onto `parts_waiting_ack`, insert
the frame into `packet_in_flight`. -/
def registerPart (st : SrvState) (id : Nat) (pkt : List Nat) : SrvState :=
  { waiting := st.waiting ++ [id],
    inFlight :=
      if (lookupPacket st.inFlight id).isSome then
        st.inFlight.map (fun kv => if kv.1 = id then (id, pkt) else kv)
      else
        st.inFlight ++ [(id, pkt)] }

/-! ## Receiver (`src/client.rs`) -/

/-- Stable insertion of a part into a list sorted by id, modelling
`Vec::sort_by(|a, b| a.0.partial_cmp(&b.0).unwrap())` (a stable sort by
the id component). -/
def insertByFst (p : Nat × List Nat) : List (Nat × List Nat) → List (Nat × List Nat)
  | [] => [p]
  | q :: rest => if p.1 < q.1 then p :: q :: rest else q :: insertByFst p rest

/-- Stable insertion sort by the id component. -/
def sortByFst (l : List (Nat × List Nat)) : List (Nat × List Nat) :=
  l.foldr insertByFst []

/-- `Vec` growth on `extend`: the capacity is kept when the new length
fits and at least doubled otherwise. -/
def growCap (cap newLen : Nat) : Nat :=
  if newLen ≤ cap then cap else max (2 * cap) newLen

/-- The batch-flush loop of `handle_file_write`
(`src/client.rs:41-63`): `for i in 0..(part_buffer.len() - 1)` over the
sorted buffer, carrying the file `cursor`, the `slab` (with its
capacity) and the log of positioned writes.  Each iteration first
flushes the slab if it has reached its capacity, then either extends it
with part `i`'s bytes (when ids `i` and `i+1` are contiguous) or
flushes it and restarts it from part `i`'s bytes (on a gap).  The loop
stops *before* the last buffered pair, and the source flushes nothing
after the loop. -/
def flushLoop (cursor : Nat) (slab : List Nat) (slabCap : Nat)
    (writes : List (Nat × List Nat)) : List (Nat × List Nat) → List (Nat × List Nat)
  | p :: q :: rest =>
    let cursor1 := if slab.length = slabCap then cursor + slab.length else cursor
    let writes1 := if slab.length = slabCap then writes ++ [(cursor, slab)] else writes
    let slab1 := if slab.length = slabCap then ([] : List Nat) else slab
    if p.1 + 1 = q.1 then
      flushLoop cursor1 (slab1 ++ p.2) (growCap slabCap (slab1.length + p.2.length))
        writes1 (q :: rest)
    else
      flushLoop (cursor1 + slab1.length) p.2 (growCap slabCap p.2.length)
        (writes1 ++ [(cursor1, slab1)]) (q :: rest)
  | _ => writes

/-- State of the Reassembly Writer `handle_file_write`
(`src/client.rs:27-77`): the batch buffer (`Vec::with_capacity(100)`,
never cleared by the source), its current capacity, the
`parts_received` counter, the log of positioned `write_all` calls, and
whether the loop has exited. -/
structure WriterState where
  buffer : List (Nat × List Nat)
  cap : Nat
  received : Nat
  writes : List (Nat × List Nat)
  done : Bool
deriving DecidableEq, Repr

/-- Writer state at thread start. -/
def initWriter : WriterState := ⟨[], 100, 0, [], false⟩

/-- One `file_chan.recv()` iteration of `handle_file_write`: push the
part (the `Vec` doubles its capacity when full), bump `parts_received`,
flush when the buffer length equals its capacity or all parts are in,
and break once `parts_received == nb_parts`.  A flush sorts the buffer
by id, sets the cursor to `first id × PART_SIZE`, and runs the flush
loop with a fresh empty slab of capacity `BUF_CAPACITY`; the buffer is
not cleared afterwards. -/
def writerStep (nbParts : Nat) (st : WriterState) (part : Nat × List Nat) : WriterState :=
  if st.done then st
  else
    let cap := if st.buffer.length = st.cap then 2 * st.cap else st.cap
    let buffer := st.buffer ++ [part]
    let received := st.received + 1
    if buffer.length = cap ∨ received = nbParts then
      let sorted := sortByFst buffer
      let cursor := (sorted.headD (0, [])).1 * PART_SIZE
      ⟨buffer, cap, received, st.writes ++ flushLoop cursor [] BUF_CAPACITY [] sorted,
        received == nbParts⟩
    else
      ⟨buffer, cap, received, st.writes, received == nbParts⟩

/-- `handle_file_write` over a delivered sequence of `(id, data)`
pairs. -/
def handleFileWrite (nbParts : Nat) (parts : List (Nat × List Nat)) : WriterState :=
  parts.foldl (writerStep nbParts) initWriter

/-- A positioned write: `seek(SeekFrom::Start(off))` followed by
`write_all(bytes)`; writing past the current end of file zero-fills the
gap. -/
def applyWrite (file : List Nat) (off : Nat) (bytes : List Nat) : List Nat :=
  (file.take off ++ List.replicate (off - file.length) 0) ++ bytes
    ++ file.drop (off + bytes.length)

/-- Destination-file content after a log of positioned writes, starting
from the freshly created (empty) file. -/
def fileAfter (writes : List (Nat × List Nat)) : List Nat :=
  writes.foldl (fun f w => applyWrite f w.1 w.2) []

/-- Stable insertion for `Vec::<u32>::sort`. -/
def insertNat (x : Nat) : List Nat → List Nat
  | [] => [x]
  | y :: rest => if x < y then x :: y :: rest else y :: insertNat x rest

/-- `Vec::<u32>::sort` as a stable insertion sort. -/
def sortNats (l : List Nat) : List Nat := l.foldr insertNat []

/-- State of `handle_client_read`'s Part handling: the `parts_received`
vector and whether the loop announced "Transfer finished!" and broke. -/
structure ReadState where
  received : List Nat
  finished : Bool
deriving DecidableEq, Repr

/-- The `Part` branch of `handle_client_read` (`src/client.rs:114-127`):
forward the pair to the writer (not tracked here), *push* the id onto
`parts_received`, sort the vector, and finish when its length —
duplicates included — reaches `nb_parts`. -/
def clientReadStep (nbParts : Nat) (st : ReadState) (id : Nat) : ReadState :=
  if st.finished then st
  else
    let r := sortNats (st.received ++ [id])
    ⟨r, decide (nbParts ≤ r.length)⟩

/-- The receiver's Part processing over a delivered id sequence. -/
def clientRead (nbParts : Nat) (ids : List Nat) : ReadState :=
  ids.foldl (clientReadStep nbParts) ⟨[], false⟩

/-- The `Sync` branch of `handle_client_read` (`src/client.rs:129-150`):
partition the incoming id list by binary search over `parts_received`;
hits are pushed onto `ack`, misses onto `loss`, in input order. -/
def syncPartition (received : List Nat) : List Nat → List Nat × List Nat
  | [] => ([], [])
  | id :: rest =>
    let p := syncPartition received rest
    if (binarySearch received id).isSome then (id :: p.1, p.2) else (p.1, id :: p.2)

/-- `handle_client_sync` (`src/client.rs:79-99`): emit an `Ack` frame
when the ack list is non-empty and a `Loss` frame when the loss list is
non-empty. -/
def clientSyncMessages (ack loss : List Nat) : List Message :=
  (if 0 < ack.length then [Message.ack ack] else [])
    ++ (if 0 < loss.length then [Message.loss loss] else [])

/-! ## Lemmas about the binary search -/

theorem sorted_getD_mono (a : List Nat) (hs : a.Sorted (· ≤ ·)) (i j : Nat)
    (hij : i ≤ j) (hj : j < a.length) : a.getD i 0 ≤ a.getD j 0 := by
  have hi : i < a.length := Nat.lt_of_le_of_lt hij hj
  rw [List.getD_eq_getElem a 0 hi, List.getD_eq_getElem a 0 hj]
  rcases Nat.lt_or_ge i j with h | h
  · exact List.pairwise_iff_getElem.mp hs i j hi hj h
  · have h2 : i = j := Nat.le_antisymm hij h
    subst h2
    exact Nat.le_refl _

/-- Soundness of the binary search, no sortedness needed: a hit always
points at an occurrence of the target. -/
theorem binarySearchGo_sound (a : List Nat) (t : Nat) :
    ∀ fuel lo hi i, hi ≤ a.length → binarySearchGo a t fuel lo hi = some i →
      i < a.length ∧ a.getD i 0 = t := by
  intro fuel
  induction fuel with
  | zero =>
    intro lo hi i _ h
    simp [binarySearchGo] at h
  | succ n ih =>
    intro lo hi i hhi h
    rw [binarySearchGo] at h
    by_cases hlh : lo < hi
    · rw [if_pos hlh] at h
      by_cases h1 : a.getD ((lo + hi) / 2) 0 < t
      · rw [if_pos h1] at h
        exact ih _ _ _ hhi h
      · rw [if_neg h1] at h
        by_cases h2 : t < a.getD ((lo + hi) / 2) 0
        · rw [if_pos h2] at h
          exact ih _ _ _ (by omega) h
        · rw [if_neg h2] at h
          have hmi : (lo + hi) / 2 = i := Option.some.inj h
          refine ⟨by omega, ?_⟩
          rw [← hmi]
          omega
    · rw [if_neg hlh] at h
      exact absurd h (by simp)

/-- Completeness of the binary search over a sorted vector with enough
fuel: a present target is found. -/
theorem binarySearchGo_complete (a : List Nat) (t : Nat) (hs : a.Sorted (· ≤ ·)) :
    ∀ fuel lo hi, hi - lo ≤ fuel → hi ≤ a.length →
      (∃ j, lo ≤ j ∧ j < hi ∧ a.getD j 0 = t) →
      (binarySearchGo a t fuel lo hi).isSome := by
  intro fuel
  induction fuel with
  | zero =>
    rintro lo hi hf _ ⟨j, h1, h2, _⟩
    omega
  | succ n ih =>
    rintro lo hi hf hhi ⟨j, hj1, hj2, hj3⟩
    have hlh : lo < hi := Nat.lt_of_le_of_lt hj1 hj2
    rw [binarySearchGo, if_pos hlh]
    by_cases h1 : a.getD ((lo + hi) / 2) 0 < t
    · rw [if_pos h1]
      refine ih _ _ (by omega) hhi ⟨j, ?_, hj2, hj3⟩
      by_contra hcon
      have hjm : j ≤ (lo + hi) / 2 := by omega
      have := sorted_getD_mono a hs j ((lo + hi) / 2) hjm (by omega)
      omega
    · rw [if_neg h1]
      by_cases h2 : t < a.getD ((lo + hi) / 2) 0
      · rw [if_pos h2]
        refine ih _ _ (by omega) (by omega) ⟨j, hj1, ?_, hj3⟩
        by_contra hcon
        have hjm : (lo + hi) / 2 ≤ j := by omega
        have := sorted_getD_mono a hs ((lo + hi) / 2) j hjm (by omega)
        omega
      · rw [if_neg h2]
        simp

/-- On a sorted `parts_waiting_ack` / `parts_received`, the binary
search succeeds exactly on membership. -/
theorem binarySearch_isSome_iff_mem (a : List Nat) (t : Nat) (hs : a.Sorted (· ≤ ·)) :
    (binarySearch a t).isSome ↔ t ∈ a := by
  constructor
  · intro h
    match hbs : binarySearch a t with
    | some i =>
      obtain ⟨hi, hv⟩ := binarySearchGo_sound a t a.length 0 a.length i (Nat.le_refl _) hbs
      rw [List.getD_eq_getElem a 0 hi] at hv
      exact hv ▸ List.getElem_mem hi
    | none =>
      rw [hbs] at h
      simp at h
  · intro hmem
    obtain ⟨i, hi, hv⟩ := List.mem_iff_getElem.mp hmem
    refine binarySearchGo_complete a t hs a.length 0 a.length (by omega) (Nat.le_refl _)
      ⟨i, Nat.zero_le _, hi, ?_⟩
    rw [List.getD_eq_getElem a 0 hi]
    exact hv

/-- An id absent from the vector is never found, sorted or not (Rust's
`binary_search` returns `Ok` only at an element equal to the target). -/
theorem binarySearch_eq_none_of_not_mem (a : List Nat) (t : Nat) (h : t ∉ a) :
    binarySearch a t = none := by
  match hbs : binarySearch a t with
  | none => rfl
  | some i =>
    obtain ⟨hi, hv⟩ := binarySearchGo_sound a t a.length 0 a.length i (Nat.le_refl _) hbs
    rw [List.getD_eq_getElem a 0 hi] at hv
    exact absurd (hv ▸ List.getElem_mem hi) h

/-! ## Lemmas about the Sync Responder and the Loss branch -/

/-- The Sync partition loop is a pair of filters by search success. -/
theorem syncPartition_eq_filter (received : List Nat) (S : List Nat) :
    syncPartition received S =
      (S.filter (fun id => (binarySearch received id).isSome),
       S.filter (fun id => !(binarySearch received id).isSome)) := by
  induction S with
  | nil => rfl
  | cons id rest ih =>
    simp only [syncPartition, ih, List.filter]
    by_cases h : (binarySearch received id).isSome
    · simp [h]
    · simp [h]

/-- The Loss branch resends exactly the cached frame of each listed id
that is in flight, in list order, skipping absent ids. -/
theorem lossResends_eq_filterMap (inFlight : List (Nat × List Nat)) (ids : List Nat) :
    lossResends inFlight ids = ids.filterMap (fun id => lookupPacket inFlight id) := by
  induction ids with
  | nil => rfl
  | cons id rest ih =>
    simp only [lossResends, List.filterMap]
    cases lookupPacket inFlight id <;> simp [ih]

/-! ## Lemmas about the Transmitter -/

/-- `make_parts_packet` on the length-0 slice handed over by
`handle_send` never succeeds: either the `DoesNotFit` guard fires (and
`.expect` aborts) or the store to `packet[0]` is out of bounds. -/
theorem sendChunks_cons_eq_none (chunk : List Nat) (rest : List (List Nat)) (pid : Nat) :
    sendChunks (chunk :: rest) pid = none := by
  have h2 : ([] : List Nat).length < 5 + chunk.length := by simp
  by_cases h : PART_SIZE < chunk.length <;>
    simp [sendChunks, makePartsPacket, h, h2]

/-- `handle_send` panics on the first chunk of any non-empty buffer. -/
theorem handleSendGo_eq_none (buf : List Nat) (rest : List (List Nat)) (pid : Nat)
    (h : buf ≠ []) : handleSendGo (buf :: rest) pid = none := by
  have hch : chunksOf PART_SIZE buf
      = buf.take PART_SIZE :: chunksOf PART_SIZE (buf.drop PART_SIZE) := by
    rw [chunksOf]
    rw [dif_neg]
    simp [h, PART_SIZE, MTU]
  simp [handleSendGo, hch, sendChunks_cons_eq_none]

/-- `read_to_end` on a one-byte file sends a single `BUF_CAPACITY`-byte
buffer: the byte followed by `BUF_CAPACITY - 1` zeroes of padding. -/
theorem readToEnd_single_byte :
    readToEndBuffers [42] = [[42] ++ List.replicate (BUF_CAPACITY - 1) 0] := by
  rw [readToEndBuffers]
  rw [dif_neg (by simp)]
  have hbuf : (1 : Nat) ≤ BUF_CAPACITY := by norm_num [BUF_CAPACITY]
  rw [List.take_of_length_le (by simpa using hbuf), List.drop_eq_nil_of_le (by simpa using hbuf)]
  rw [readToEndBuffers]
  simp

/-! ## Claims -/

/-- **C1** (refuted, code bug). The claim says that delivering all `N`
parts of a file to the Reassembly Writer in any order, duplicates
allowed, yields a destination byte-identical to the source once all `N`
distinct ids have been seen.  Already the simplest instance fails: for
`N = 1` and the single part `(0, [7])` the final-batch flush runs its
loop `for i in 0..(len - 1)` zero times and never writes the trailing
slab, so `handle_file_write` performs no write at all and the
destination stays empty instead of equalling the one-byte source. -/
theorem reassembly_never_writes_single_part :
    (handleFileWrite 1 [(0, [7])]).writes = [] ∧
    fileAfter (handleFileWrite 1 [(0, [7])]).writes ≠ [7] := by decide

/-- **C2** (refuted, code bug). The claim says
`Message::parse (Message::serialize m) = m` for every variant.  It
fails already on `Part { id: 0, data: [] }`: `serialize` emits
`[2, 0, 0, 0, 0]`, but `parse` reads the id through a `Cursor` starting
at position 0, folding the discriminant byte into the id
(`0x02000000 = 33554432`), and `read_to_end` appends the remaining
bytes to a zero vector of length `len - 5`, yielding data `[0]`. -/
theorem codec_roundtrip_fails :
    Message.parse (Message.serialize (.part 0 [])) = .ok (.part 33554432 [0]) ∧
    Message.parse (Message.serialize (.part 0 [])) ≠ .ok (.part 0 []) := by decide

/-- **C3** (refuted, code bug). The claim says `Message::parse` on any
prefix of a valid frame (including the empty slice) returns an error or
a message and never panics.  In fact `parse` indexes `data[0]` before
any length check — panicking on the empty slice — and on a 4-byte
prefix of a `Part` frame it computes `vec![0; data.len() - 4 - 1]`, a
`usize` underflow (panic/abort). -/
theorem parse_panics_on_prefixes :
    Message.parse [] = .panic ∧
    Message.parse ((Message.serialize (.part 0 [7])).take 4) = .panic := by decide

/-- **C4** (refuted, code bug). The claim says every maximal contiguous
run of a flushed batch is written at `firstId × PART_SIZE`, and that
the final run — including the last buffered pair — is always written.
For the batch `[(0, [7]), (2, [9])]` (with `nb_parts = 2`) the flush
performs exactly one positioned write, of the *empty* slab at offset 0:
the run `(0, [7])` only enters the slab after the gap test and is never
flushed, and the loop stops before the last pair `(2, [9])`, which is
neither written at `2 × PART_SIZE` nor anywhere else. -/
theorem flush_drops_final_run :
    (handleFileWrite 2 [(0, [7]), (2, [9])]).writes = [(0, [])] := by decide

/-- **C5** (refuted, code bug). The claim says that after an Ack for a
previously sent id `k`, `k` is absent from both `parts_waiting_ack` and
`packet_in_flight`, and a later Loss for `k` retransmits nothing.  The
Ack branch of `handle_ack_and_loss` only removes `k` from
`parts_waiting_ack` and never evicts `packet_in_flight`, so after
registering part 0 and processing `Ack [0]`, the frame is still cached
and `Loss [0]` resends it. -/
theorem ack_does_not_evict_cache :
    (handleAckMsg (registerPart ⟨[], []⟩ 0 [2, 0, 0, 0, 0, 7]) [0]).waiting = [] ∧
    lookupPacket (handleAckMsg (registerPart ⟨[], []⟩ 0 [2, 0, 0, 0, 0, 7]) [0]).inFlight 0
      = some [2, 0, 0, 0, 0, 7] ∧
    (handleLossMsg (handleAckMsg (registerPart ⟨[], []⟩ 0 [2, 0, 0, 0, 0, 7]) [0]) [0]).2
      = [[2, 0, 0, 0, 0, 7]] := by decide

/-- **C6** (refuted, code bug). The claim says a duplicate Part id is a
no-op on the received-id set and completion is signalled exactly when
the number of *distinct* ids equals the announced total.  The receiver
keeps `parts_received` as a `Vec` and pushes unconditionally, so with
`nb_parts = 2` two deliveries of id 0 grow the vector to `[0, 0]` and
the loop announces "Transfer finished!" with only one distinct id. -/
theorem duplicate_part_counts_toward_completion :
    (clientRead 2 [0, 0]).finished = true ∧
    (clientRead 2 [0, 0]).received = [0, 0] ∧
    (clientRead 2 [0, 0]).received.dedup = [0] := by decide

/-- **C7** (confirmed). For every received-id vector `R` (sorted, as
`handle_client_read` maintains it by sorting after each push) and every
incoming Sync id list `S`, the Sync Responder's partition satisfies
`ack = S ∩ R`, `loss = S − R`, `ack ∪ loss = S` and
`ack ∩ loss = ∅`. -/
theorem sync_responder_partitions (R S : List Nat) (hs : R.Sorted (· ≤ ·)) :
    (∀ x, x ∈ (syncPartition R S).1 ↔ x ∈ S ∧ x ∈ R) ∧
    (∀ x, x ∈ (syncPartition R S).2 ↔ x ∈ S ∧ x ∉ R) ∧
    (∀ x, x ∈ S ↔ x ∈ (syncPartition R S).1 ∨ x ∈ (syncPartition R S).2) ∧
    (∀ x, ¬(x ∈ (syncPartition R S).1 ∧ x ∈ (syncPartition R S).2)) := by
  have hmem : ∀ x : Nat, (binarySearch R x).isSome ↔ x ∈ R := fun x =>
    binarySearch_isSome_iff_mem R x hs
  have hack : ∀ x, x ∈ (syncPartition R S).1 ↔ x ∈ S ∧ x ∈ R := by
    intro x
    simp only [syncPartition_eq_filter, List.mem_filter, hmem]
  have hloss : ∀ x, x ∈ (syncPartition R S).2 ↔ x ∈ S ∧ x ∉ R := by
    intro x
    simp only [syncPartition_eq_filter, List.mem_filter, Bool.not_eq_true',
      ← Bool.not_eq_true, hmem]
  refine ⟨hack, hloss, ?_, ?_⟩
  · intro x
    simp only [hack, hloss]
    tauto
  · intro x
    simp only [hack, hloss]
    tauto

/-- Witness for C7 at `R = [0, 2]`, `S = [2, 3]`. -/
theorem sync_responder_partitions_witness :
    ([0, 2] : List Nat).Sorted (· ≤ ·) ∧
    (∀ x, x ∈ (syncPartition [0, 2] [2, 3]).1 ↔ x ∈ [2, 3] ∧ x ∈ [0, 2]) :=
  ⟨by decide, (sync_responder_partitions [0, 2] [2, 3] (by decide)).1⟩

/-- **C8** (confirmed). On a Loss message the processor resends exactly
the cached frames — id for id, byte for byte, in list order — of the
ids present in `packet_in_flight`, skips absent ids while continuing
with the rest, and modifies no state; an Ack id absent from
`parts_waiting_ack` leaves the whole state unchanged. -/
theorem ack_loss_processor_robust (st : SrvState) (ids : List Nat) (k : Nat)
    (hk : k ∉ st.waiting) :
    (handleLossMsg st ids).2 = ids.filterMap (fun id => lookupPacket st.inFlight id) ∧
    (handleLossMsg st ids).1 = st ∧
    handleAckMsg st [k] = st := by
  cases st with
  | mk w f =>
    have h := binarySearch_eq_none_of_not_mem w k hk
    refine ⟨lossResends_eq_filterMap f ids, rfl, ?_⟩
    simp [handleAckMsg, ackStep, h]

/-- Witness for C8 at a one-packet cache and an absent Ack id. -/
theorem ack_loss_processor_robust_witness :
    (2 ∉ (⟨[0], [(0, [9])]⟩ : SrvState).waiting) ∧
    handleAckMsg ⟨[0], [(0, [9])]⟩ [2] = ⟨[0], [(0, [9])]⟩ :=
  ⟨by decide, (ack_loss_processor_robust ⟨[0], [(0, [9])]⟩ [5] 2 (by decide)).2.2⟩

/-- **C9** (refuted, code bug). The claim says the Transmitter produces
Part messages whose payloads concatenate, in id order, to exactly the
source bytes.  For the one-byte source `[42]`, `read_to_end` forwards
the whole zero-initialised `BUF_CAPACITY`-byte buffer (padding the
source), and `handle_send` then panics in `make_parts_packet` on its
first chunk because the packet buffer has length 0 — so no covering
Part sequence is ever produced. -/
theorem transmitter_crashes_on_padded_buffer :
    handleSend (readToEndBuffers [42]) = none ∧
    (readToEndBuffers [42]).flatten ≠ [42] := by
  rw [readToEnd_single_byte]
  constructor
  · exact handleSendGo_eq_none _ _ 0 (by simp)
  · intro hcon
    have hlen := congrArg List.length hcon
    rw [List.flatten_cons, List.flatten_nil, List.append_nil, List.length_append,
      List.length_replicate] at hlen
    simp only [List.length_cons, List.length_nil] at hlen
    norm_num [BUF_CAPACITY] at hlen

/-- **C10** (confirmed). `make_parts_packet` writes indices `0` through
`4 + data.len()` by direct indexing, so (given the `DoesNotFit` guard
passes) it succeeds exactly when `packet.len() ≥ 5 + data.len()` and
panics otherwise; `handle_send` hands it the empty slice of
`Vec::with_capacity(MTU)`, so every non-degenerate chunk panics. -/
theorem make_parts_packet_bounds (data packet chunk : List Nat) (pid cid : Nat)
    (hd : data.length ≤ PART_SIZE) ( _hc : chunk ≠ []) (hcs : chunk.length ≤ PART_SIZE) :
    ((∃ out, makePartsPacket data pid packet = .ok out) ↔ 5 + data.length ≤ packet.length) ∧
    makePartsPacket chunk cid [] = .panic := by
  constructor
  · constructor
    · rintro ⟨out, hout⟩
      rw [makePartsPacket, if_neg (by omega)] at hout
      by_cases hl : packet.length < 5 + data.length
      · rw [if_pos hl] at hout
        simp at hout
      · omega
    · intro hl
      rw [makePartsPacket, if_neg (by omega), if_neg (by omega)]
      exact ⟨_, rfl⟩
  · rw [makePartsPacket, if_neg (by omega), if_pos (by simp only [List.length_nil]; omega)]

/-- Witness for C10: a fitting chunk, a 6-byte packet buffer, and the
length-0 buffer used by `handle_send`. -/
theorem make_parts_packet_bounds_witness :
    ([1] : List Nat).length ≤ PART_SIZE ∧
    (((∃ out, makePartsPacket [1] 0 (List.replicate 6 0) = .ok out) ↔
        5 + ([1] : List Nat).length ≤ (List.replicate 6 0).length) ∧
      makePartsPacket [1] 0 [] = .panic) :=
  ⟨by decide,
    make_parts_packet_bounds [1] (List.replicate 6 0) [1] 0 0 (by decide) (by decide) (by decide)⟩

end Sanic
